import Mathlib

/-!
Verification of `src/team_ex_2.py`, a Wikipedia batch downloader with three
execution strategies (sequential, thread pool, process pool).

The embedding models the external world by an environment `Env`:
`Env.wikipage` is the content source (`wikipedia.page` together with the lazy
`page.title` / `page.references` accesses performed inside the `try` block),
returning either a page — canonical title plus reference list — or one of the
Python `Exception` subclasses that call can raise; `Env.writeErr` tells, for a
file name, whether `Path.write_text` raises (`some message`) or succeeds
(`none`).  The filesystem is an association list from file name to written
text; Python strings are Lean `String`s (both are sequences of Unicode code
points, and `write_text(..., encoding="utf-8")` stores exactly that code-point
sequence).  A Python function that may raise is embedded with an
`Except String` result; the `try/except` blocks of the source become `match`
on that `Except`.
-/

namespace TeamEx2

/-- Exceptions (Python `Exception` subclasses) observable from the content
source inside `fetch_page_references`: the three classified wikipedia
exceptions and a catch-all for any other `Exception`.  The payload models
`str(e)`. -/
inductive PyExn where
  | disambiguation (msg : String)
  | pageError (msg : String)
  | timeout (msg : String)
  | other (msg : String)
deriving DecidableEq, Repr

/-- Detail string produced by the four `except` branches of
`fetch_page_references` for each exception kind. -/
def describe : PyExn → String
  | .disambiguation m => "Disambiguation: " ++ m
  | .pageError m => "PageError: " ++ m
  | .timeout m => "Timeout: " ++ m
  | .other m => "Unexpected: " ++ m

/-- The `FetchResult` dataclass of the source. -/
structure FetchResult where
  title : String
  references : List String
  error : Option String := none
deriving DecidableEq, Repr

/-- Translation of `fetch_page_references`: on a successful page fetch it
returns the canonical title and the reference list; each exception branch
returns the requested title, an empty list, and a tagged detail string. -/
def fetch_page_references (wikipage : String → Except PyExn (String × List String))
    (title : String) : FetchResult :=
  match wikipage title with
  | .ok (canonical, refs) => { title := canonical, references := refs }
  | .error (.disambiguation m) =>
      { title := title, references := [], error := some ("Disambiguation: " ++ m) }
  | .error (.pageError m) =>
      { title := title, references := [], error := some ("PageError: " ++ m) }
  | .error (.timeout m) =>
      { title := title, references := [], error := some ("Timeout: " ++ m) }
  | .error (.other m) =>
      { title := title, references := [], error := some ("Unexpected: " ++ m) }

/-- Characters matched by the `safe_filename` pattern `[\\/:*?"<>|]`. -/
def illegalChar (c : Char) : Bool :=
  c == '\\' || c == '/' || c == ':' || c == '*' || c == '?' ||
  c == '"' || c == '<' || c == '>' || c == '|'

/-- Characters matched by Python's `\s` on `str` (which coincides with
`str.isspace`): ASCII whitespace, the information separators, and the Unicode
space characters. -/
def pySpace (c : Char) : Bool :=
  (0x09 ≤ c.toNat && c.toNat ≤ 0x0d) || c.toNat == 0x20 ||
  (0x1c ≤ c.toNat && c.toNat ≤ 0x1f) || c.toNat == 0x85 || c.toNat == 0xa0 ||
  c.toNat == 0x1680 || (0x2000 ≤ c.toNat && c.toNat ≤ 0x200a) ||
  c.toNat == 0x2028 || c.toNat == 0x2029 || c.toNat == 0x202f ||
  c.toNat == 0x205f || c.toNat == 0x3000

/-- Model of `re.sub(pattern+, rep, s)` for a character class: every maximal
run of characters satisfying `bad` is replaced by the single character `rep`.
The boolean flag records whether the previous character was part of a run. -/
def subRuns (bad : Char → Bool) (rep : Char) : Bool → List Char → List Char
  | _, [] => []
  | prevBad, c :: cs =>
    if bad c then
      if prevBad then subRuns bad rep true cs
      else rep :: subRuns bad rep true cs
    else c :: subRuns bad rep false cs

/-- Python `str.lstrip()` on the character list. -/
def lstrip (l : List Char) : List Char := l.dropWhile pySpace

/-- Python `str.rstrip()` on the character list. -/
def rstrip (l : List Char) : List Char := (l.reverse.dropWhile pySpace).reverse

/-- Translation of `safe_filename`: replace runs of illegal characters by
`"_"`, collapse whitespace runs to a single space and strip both ends, then
truncate to 150 characters and strip trailing whitespace again. -/
def safe_filename (name : String) : String :=
  let s1 := subRuns illegalChar '_' false name.data
  let s2 := rstrip (lstrip (subRuns pySpace ' ' false s1))
  String.mk (rstrip (s2.take 150))

/-- The output directory's state: an association list from file name to the
text last written under that name (most recent write first). -/
abbrev FS := List (String × String)

/-- Overwriting write of `content` under `key` (`Path.write_text`). -/
def fsWrite (fs : FS) (key content : String) : FS :=
  (key, content) :: fs.filter (fun kv => kv.1 != key)

/-- Content of the file named `key`, if present. -/
def fsGet (fs : FS) (key : String) : Option String :=
  (fs.find? (fun kv => kv.1 == key)).map (fun kv => kv.2)

/-- Names of the files present in the directory. -/
def fsKeys (fs : FS) : List String := fs.map (fun kv => kv.1)

/-- The external world: the content source and the write-failure behaviour of
the storage directory. -/
structure Env where
  wikipage : String → Except PyExn (String × List String)
  writeErr : String → Option String

/-- Translation of `save_references`: a result carrying an error writes
nothing and returns `None`; otherwise the payload is joined with newlines and
written under the sanitized title plus `".txt"`.  The `Except` layer carries a
`write_text` failure out of the function, as the source has no handler here. -/
def save_references (env : Env) (result : FetchResult) (fs : FS) :
    Except String (Option String × FS) :=
  if result.error.isSome then Except.ok (none, fs)
  else
    let fn := safe_filename result.title ++ ".txt"
    match env.writeErr fn with
    | some msg => Except.error msg
    | none =>
        Except.ok (some fn, fsWrite fs fn (String.intercalate "\n" result.references))

/-- Observable state of one strategy run: the two counters, the directory
contents, and the status lines printed so far (in emission order). -/
structure RunState where
  ok : Nat := 0
  skipped : Nat := 0
  fs : FS := []
  log : List String := []
deriving DecidableEq, Repr

/-- One iteration of the `run_sequential` loop body. -/
def seqStep (env : Env) (st : RunState) (t : String) : Except String RunState :=
  let res := fetch_page_references env.wikipage t
  match save_references env res st.fs with
  | .error e => .error e
  | .ok (some fn, fs1) =>
      .ok { st with ok := st.ok + 1, fs := fs1, log := st.log ++ ["✓ wrote " ++ fn] }
  | .ok (none, fs1) =>
      .ok { st with
              skipped := st.skipped + 1,
              fs := fs1,
              log := st.log ++ ["– skipped " ++ t ++ " (" ++ res.error.getD "None" ++ ")"] }

/-- The `run_sequential` loop from an intermediate state: one iteration per
title, in input order; an exception raised by an iteration propagates and
abandons the remaining titles. -/
def run_sequential_from (env : Env) (st : RunState) : List String → Except String RunState
  | [] => .ok st
  | t :: rest =>
    match seqStep env st t with
    | .error e => .error e
    | .ok st1 => run_sequential_from env st1 rest

/-- Translation of `run_sequential`: run the loop from the zeroed counters. -/
def run_sequential (env : Env) (titles : List String) : Except String RunState :=
  run_sequential_from env {} titles

/-- Translation of `_process_worker`: fetch, return `(title, error)` on a
fetch failure, otherwise save and return the written name with no error.  The
third branch mirrors `p.name if p else title`; an exception from
`save_references` escapes the worker and is stored in its future. -/
def process_worker (env : Env) (title : String) (fs : FS) :
    Except String ((String × Option String) × FS) :=
  let res := fetch_page_references env.wikipage title
  if res.error.isSome then .ok ((title, res.error), fs)
  else
    match save_references env res fs with
    | .error e => .error e
    | .ok (some fn, fs1) => .ok ((fn, none), fs1)
    | .ok (none, fs1) => .ok ((title, none), fs1)

/-- The value the orchestrator receives from `fut.result()` for one title:
the worker's reply, or the exception it raised.  It does not depend on the
directory state, so it is computed against the empty one. -/
def workerReply (env : Env) (title : String) : Except String (String × Option String) :=
  (process_worker env title []).map Prod.fst

/-- Directory contents after all workers ran, given the order in which their
writes reached the filesystem.  A worker whose write raises leaves no file. -/
def poolWrites (env : Env) (order : List String) (fs : FS) : FS :=
  order.foldl (fun fs t =>
    match process_worker env t fs with
    | .ok (_, fs1) => fs1
    | .error _ => fs) fs

/-- One iteration of the `as_completed` loop shared by `run_threads` and
`run_processes`: the `try/except` around `fut.result()` becomes the match on
`workerReply`; `tag` is `"thread error"` or `"process error"`. -/
def poolStep (env : Env) (tag : String) (st : RunState) (t : String) : RunState :=
  match workerReply env t with
  | .ok (nameOrTitle, none) =>
      { st with ok := st.ok + 1, log := st.log ++ ["✓ wrote " ++ nameOrTitle] }
  | .ok (_, some err) =>
      { st with
          skipped := st.skipped + 1,
          log := st.log ++ ["– skipped " ++ t ++ " (" ++ err ++ ")"] }
  | .error e =>
      { st with
          skipped := st.skipped + 1,
          log := st.log ++ ["– skipped " ++ t ++ " (" ++ tag ++ ": " ++ e ++ ")"] }

/-- Translation of `run_threads`.  The scheduler's nondeterminism appears as
two parameters: `writeOrder`, the order the workers' writes hit the
filesystem, and `deliveryOrder`, the order `as_completed` yields the futures;
a run of the Python code corresponds to some pair of permutations of the
submitted titles.  The function returns normally for every input. -/
def run_threads (env : Env) (writeOrder deliveryOrder : List String) :
    Except String RunState :=
  Except.ok (deliveryOrder.foldl (poolStep env "thread error")
    { fs := poolWrites env writeOrder [] })

/-- Translation of `run_processes`; identical to `run_threads` except for the
status-line tag, as in the source. -/
def run_processes (env : Env) (writeOrder deliveryOrder : List String) :
    Except String RunState :=
  Except.ok (deliveryOrder.foldl (poolStep env "process error")
    { fs := poolWrites env writeOrder [] })

/-- Whether fetching `t` succeeds (the saved/skipped distinction of both
`run_sequential` and `_process_worker`). -/
def fetchOk (env : Env) (t : String) : Bool :=
  (fetch_page_references env.wikipage t).error.isNone

/-- The file name `save_references` uses for title `t`. -/
def storageKey (env : Env) (t : String) : String :=
  safe_filename (fetch_page_references env.wikipage t).title ++ ".txt"

/-- The text `save_references` writes for title `t`. -/
def storageContent (env : Env) (t : String) : String :=
  String.intercalate "\n" (fetch_page_references env.wikipage t).references

/-- Whether processing `t` ends with a completed write. -/
def writeHappens (env : Env) (t : String) : Bool :=
  fetchOk env t && (env.writeErr (storageKey env t)).isNone

/-- Effect of processing one title on the directory. -/
def writeStep (env : Env) (fs : FS) (t : String) : FS :=
  if writeHappens env t then fsWrite fs (storageKey env t) (storageContent env t) else fs

/-- Whether the orchestrator counts title `t` as a success. -/
def replyOk (env : Env) (t : String) : Bool :=
  match workerReply env t with
  | .ok (_, none) => true
  | _ => false

/-- The status line `run_sequential` prints for title `t`. -/
def seqLine (env : Env) (t : String) : String :=
  if fetchOk env t then "✓ wrote " ++ storageKey env t
  else "– skipped " ++ t ++ " (" ++
    (fetch_page_references env.wikipage t).error.getD "None" ++ ")"

/-- The status line the pool orchestrator prints for title `t`. -/
def poolLine (env : Env) (tag : String) (t : String) : String :=
  match workerReply env t with
  | .ok (n, none) => "✓ wrote " ++ n
  | .ok (_, some err) => "– skipped " ++ t ++ " (" ++ err ++ ")"
  | .error e => "– skipped " ++ t ++ " (" ++ tag ++ ": " ++ e ++ ")"

/-- Adjacent characters are not both in the replaced class. -/
def NotBothBad (bad : Char → Bool) (a b : Char) : Prop :=
  bad a = false ∨ bad b = false

theorem subRuns_nil (bad : Char → Bool) (rep : Char) (flag : Bool) :
    subRuns bad rep flag [] = [] := rfl

theorem subRuns_cons (bad : Char → Bool) (rep : Char) (flag : Bool) (a : Char)
    (t : List Char) :
    subRuns bad rep flag (a :: t) =
      if bad a then
        (if flag then subRuns bad rep true t else rep :: subRuns bad rep true t)
      else a :: subRuns bad rep false t := rfl

theorem mem_subRuns (bad : Char → Bool) (rep : Char) :
    ∀ (l : List Char) (flag : Bool) (c : Char),
      c ∈ subRuns bad rep flag l → c = rep ∨ c ∈ l := by
  intro l
  induction l with
  | nil => intro flag c hc; exact absurd hc (List.not_mem_nil c)
  | cons a t ih =>
    intro flag c hc
    rw [subRuns_cons] at hc
    by_cases hb : bad a = true
    · rw [if_pos hb] at hc
      cases flag with
      | true =>
          rw [if_pos rfl] at hc
          rcases ih true c hc with h | h
          · exact Or.inl h
          · exact Or.inr (List.mem_cons_of_mem a h)
      | false =>
          rw [if_neg Bool.false_ne_true] at hc
          rcases List.mem_cons.mp hc with h | h
          · exact Or.inl h
          · rcases ih true c h with h2 | h2
            · exact Or.inl h2
            · exact Or.inr (List.mem_cons_of_mem a h2)
    · rw [if_neg hb] at hc
      rcases List.mem_cons.mp hc with h | h
      · exact Or.inr (h ▸ List.mem_cons_self a t)
      · rcases ih false c h with h2 | h2
        · exact Or.inl h2
        · exact Or.inr (List.mem_cons_of_mem a h2)

theorem mem_subRuns_not_bad (bad : Char → Bool) (rep : Char) :
    ∀ (l : List Char) (flag : Bool) (c : Char),
      c ∈ subRuns bad rep flag l → c = rep ∨ bad c = false := by
  intro l
  induction l with
  | nil => intro flag c hc; exact absurd hc (List.not_mem_nil c)
  | cons a t ih =>
    intro flag c hc
    rw [subRuns_cons] at hc
    by_cases hb : bad a = true
    · rw [if_pos hb] at hc
      cases flag with
      | true => rw [if_pos rfl] at hc; exact ih true c hc
      | false =>
          rw [if_neg Bool.false_ne_true] at hc
          rcases List.mem_cons.mp hc with h | h
          · exact Or.inl h
          · exact ih true c h
    · rw [if_neg hb] at hc
      rcases List.mem_cons.mp hc with h | h
      · refine Or.inr ?_
        rw [h]
        simpa using hb
      · exact ih false c h

theorem subRuns_eq_self_of_no_bad (bad : Char → Bool) (rep : Char) :
    ∀ (l : List Char) (flag : Bool), (∀ c ∈ l, bad c = false) →
      subRuns bad rep flag l = l := by
  intro l
  induction l with
  | nil => intro flag _; rfl
  | cons a t ih =>
    intro flag h
    rw [subRuns_cons]
    have ha : bad a = false := h a (List.mem_cons_self a t)
    simp only [ha, Bool.false_eq_true, if_false]
    rw [ih false (fun c hc => h c (List.mem_cons_of_mem a hc))]

theorem head_subRuns_true_not_bad (bad : Char → Bool) (rep : Char) :
    ∀ (l : List Char) (c : Char),
      (subRuns bad rep true l).head? = some c → bad c = false := by
  intro l
  induction l with
  | nil => intro c hc; rw [subRuns_nil] at hc; exact absurd hc (by simp)
  | cons a t ih =>
    intro c hc
    rw [subRuns_cons] at hc
    by_cases hb : bad a = true
    · rw [if_pos hb, if_pos rfl] at hc
      exact ih c hc
    · rw [if_neg hb] at hc
      simp only [List.head?_cons, Option.some.injEq] at hc
      rw [← hc]
      simpa using hb

theorem chain_subRuns (bad : Char → Bool) (rep : Char) :
    ∀ (l : List Char) (flag : Bool),
      List.Chain' (NotBothBad bad) (subRuns bad rep flag l) := by
  intro l
  induction l with
  | nil => intro flag; rw [subRuns_nil]; exact List.chain'_nil
  | cons a t ih =>
    intro flag
    rw [subRuns_cons]
    by_cases hb : bad a = true
    · rw [if_pos hb]
      cases flag with
      | true => rw [if_pos rfl]; exact ih true
      | false =>
          rw [if_neg Bool.false_ne_true]
          refine List.chain'_cons'.mpr ⟨?_, ih true⟩
          intro y hy
          exact Or.inr (head_subRuns_true_not_bad bad rep t y hy)
    · rw [if_neg hb]
      refine List.chain'_cons'.mpr ⟨?_, ih false⟩
      intro y _
      exact Or.inl (by simpa using hb)

theorem subRuns_eq_self_of_normalized (bad : Char → Bool) (rep : Char) :
    ∀ (l : List Char) (flag : Bool),
      (∀ c ∈ l, bad c = true → c = rep) →
      List.Chain' (NotBothBad bad) l →
      (flag = true → ∀ c ∈ l.head?, bad c = false) →
      subRuns bad rep flag l = l := by
  intro l
  induction l with
  | nil => intro flag _ _ _; rfl
  | cons a t ih =>
    intro flag hnorm hchain hflag
    rw [subRuns_cons]
    rcases List.chain'_cons'.mp hchain with ⟨hR, hchain2⟩
    by_cases hb : bad a = true
    · cases flag with
      | true =>
          exact absurd hb (by simpa using hflag rfl a (by simp))
      | false =>
          rw [if_pos hb, if_neg Bool.false_ne_true]
          have ha : a = rep := hnorm a (List.mem_cons_self a t) hb
          have htail : subRuns bad rep true t = t := by
            refine ih true (fun c hc h => hnorm c (List.mem_cons_of_mem a hc) h) hchain2 ?_
            intro _ c hc
            rcases hR c hc with h | h
            · exact absurd hb (by simp [h])
            · exact h
          rw [htail, ha]
    · rw [if_neg hb]
      rw [ih false (fun c hc h => hnorm c (List.mem_cons_of_mem a hc) h) hchain2
        (fun h => by cases h)]

theorem rstrip_append (l : List Char) :
    l = rstrip l ++ (l.reverse.takeWhile pySpace).reverse := by
  calc l = l.reverse.reverse := (List.reverse_reverse l).symm
    _ = (l.reverse.takeWhile pySpace ++ l.reverse.dropWhile pySpace).reverse := by
        rw [List.takeWhile_append_dropWhile]
    _ = (l.reverse.dropWhile pySpace).reverse ++ (l.reverse.takeWhile pySpace).reverse := by
        rw [List.reverse_append]
    _ = rstrip l ++ (l.reverse.takeWhile pySpace).reverse := rfl

theorem rstrip_sublist (l : List Char) : List.Sublist (rstrip l) l := by
  have h1 : List.Sublist (l.reverse.dropWhile pySpace) l.reverse :=
    List.dropWhile_sublist pySpace
  have h2 := List.reverse_sublist.mpr h1
  simpa [rstrip] using h2

theorem lstrip_sublist (l : List Char) : List.Sublist (lstrip l) l :=
  List.dropWhile_sublist pySpace

theorem length_rstrip_le (l : List Char) : (rstrip l).length ≤ l.length :=
  (rstrip_sublist l).length_le

theorem chain_lstrip {R : Char → Char → Prop} {l : List Char}
    (h : List.Chain' R l) : List.Chain' R (lstrip l) := by
  rw [← List.takeWhile_append_dropWhile pySpace l] at h
  exact h.right_of_append

theorem chain_rstrip {R : Char → Char → Prop} {l : List Char}
    (h : List.Chain' R l) : List.Chain' R (rstrip l) := by
  rw [rstrip_append l] at h
  exact h.left_of_append

theorem chain_take {R : Char → Char → Prop} {l : List Char} (n : Nat)
    (h : List.Chain' R l) : List.Chain' R (l.take n) := by
  rw [← List.take_append_drop n l] at h
  exact h.left_of_append

theorem head_dropWhile_not (p : Char → Bool) :
    ∀ (l : List Char) (c : Char), (l.dropWhile p).head? = some c → p c = false := by
  intro l
  induction l with
  | nil => intro c hc; cases hc
  | cons a t ih =>
    intro c hc
    rw [List.dropWhile_cons] at hc
    by_cases hp : p a = true
    · rw [if_pos hp] at hc; exact ih c hc
    · rw [if_neg hp] at hc
      simp only [List.head?_cons, Option.some.injEq] at hc
      rw [← hc]; simpa using hp

theorem head_lstrip_not_space (l : List Char) (c : Char)
    (h : (lstrip l).head? = some c) : pySpace c = false :=
  head_dropWhile_not pySpace l c h

theorem getLast_rstrip_not_space (l : List Char) (c : Char)
    (h : (rstrip l).getLast? = some c) : pySpace c = false := by
  rw [rstrip, List.getLast?_reverse] at h
  exact head_dropWhile_not pySpace l.reverse c h

theorem head_of_append {l l₁ t : List Char} {c : Char} (h : l = l₁ ++ t)
    (hc : l₁.head? = some c) : l.head? = some c := by
  cases l₁ with
  | nil => cases hc
  | cons a s =>
      simp only [List.head?_cons, Option.some.injEq] at hc
      rw [h, List.cons_append, List.head?_cons, hc]

theorem head_of_rstrip {l : List Char} {c : Char}
    (h : (rstrip l).head? = some c) : l.head? = some c :=
  head_of_append (rstrip_append l) h

theorem head_of_take {l : List Char} {n : Nat} {c : Char}
    (h : (l.take n).head? = some c) : l.head? = some c :=
  head_of_append (List.take_append_drop n l).symm h

theorem lstrip_eq_self {l : List Char}
    (h : ∀ c, l.head? = some c → pySpace c = false) : lstrip l = l := by
  cases l with
  | nil => rfl
  | cons a t =>
      rw [lstrip, List.dropWhile_cons, if_neg]
      simp [h a rfl]

theorem rstrip_eq_self {l : List Char}
    (h : ∀ c, l.getLast? = some c → pySpace c = false) : rstrip l = l := by
  rw [rstrip]
  have h2 : l.reverse.dropWhile pySpace = l.reverse := by
    cases hr : l.reverse with
    | nil => rfl
    | cons a t =>
        rw [List.dropWhile_cons, if_neg]
        have : l.getLast? = some a := by
          rw [← List.head?_reverse, hr, List.head?_cons]
        simp [h a this]
  rw [h2, List.reverse_reverse]

theorem safe_filename_data (s : String) :
    (safe_filename s).data =
      rstrip ((rstrip (lstrip (subRuns pySpace ' ' false
        (subRuns illegalChar '_' false s.data)))).take 150) := rfl

theorem mem_safe_filename {s : String} {c : Char} (h : c ∈ (safe_filename s).data) :
    c ∈ subRuns pySpace ' ' false (subRuns illegalChar '_' false s.data) := by
  rw [safe_filename_data] at h
  have h1 := (rstrip_sublist _).mem h
  have h2 := (List.take_sublist _ _).mem h1
  have h3 := (rstrip_sublist _).mem h2
  exact (lstrip_sublist _).mem h3

theorem safe_filename_no_illegal (s : String) :
    ∀ c ∈ (safe_filename s).data, illegalChar c = false := by
  intro c hc
  rcases mem_subRuns pySpace ' ' _ false c (mem_safe_filename hc) with h | h
  · rw [h]; rfl
  · rcases mem_subRuns_not_bad illegalChar '_' s.data false c h with h3 | h3
    · rw [h3]; rfl
    · exact h3

theorem safe_filename_space_norm (s : String) :
    ∀ c ∈ (safe_filename s).data, pySpace c = true → c = ' ' := by
  intro c hc hsp
  rcases mem_subRuns_not_bad pySpace ' ' _ false c (mem_safe_filename hc) with h | h
  · exact h
  · exact absurd hsp (by simp [h])

theorem safe_filename_chain (s : String) :
    List.Chain' (NotBothBad pySpace) (safe_filename s).data := by
  rw [safe_filename_data]
  exact chain_rstrip (chain_take _ (chain_rstrip (chain_lstrip (chain_subRuns _ _ _ _))))

theorem safe_filename_head (s : String) (c : Char)
    (h : (safe_filename s).data.head? = some c) : pySpace c = false := by
  rw [safe_filename_data] at h
  exact head_lstrip_not_space _ _ (head_of_rstrip (head_of_take (head_of_rstrip h)))

theorem safe_filename_last (s : String) (c : Char)
    (h : (safe_filename s).data.getLast? = some c) : pySpace c = false := by
  rw [safe_filename_data] at h
  exact getLast_rstrip_not_space _ _ h

theorem safe_filename_data_length (s : String) :
    (safe_filename s).data.length ≤ 150 := by
  rw [safe_filename_data]
  exact le_trans (length_rstrip_le _) (List.length_take_le _ _)

theorem safe_filename_length (s : String) : (safe_filename s).length ≤ 150 :=
  safe_filename_data_length s

theorem safe_filename_idem (s : String) :
    safe_filename (safe_filename s) = safe_filename s := by
  have h1 : subRuns illegalChar '_' false (safe_filename s).data = (safe_filename s).data :=
    subRuns_eq_self_of_no_bad illegalChar '_' _ false (safe_filename_no_illegal s)
  have h2 : subRuns pySpace ' ' false (safe_filename s).data = (safe_filename s).data :=
    subRuns_eq_self_of_normalized pySpace ' ' _ false (safe_filename_space_norm s)
      (safe_filename_chain s) (fun h => by cases h)
  have h3 : lstrip (safe_filename s).data = (safe_filename s).data :=
    lstrip_eq_self (safe_filename_head s)
  have h4 : rstrip (safe_filename s).data = (safe_filename s).data :=
    rstrip_eq_self (safe_filename_last s)
  have h5 : (safe_filename s).data.take 150 = (safe_filename s).data :=
    List.take_of_length_le (safe_filename_data_length s)
  calc safe_filename (safe_filename s)
      = String.mk (rstrip ((rstrip (lstrip (subRuns pySpace ' ' false
          (subRuns illegalChar '_' false (safe_filename s).data)))).take 150)) := rfl
    _ = String.mk (safe_filename s).data := by rw [h1, h2, h3, h4, h5, h4]
    _ = safe_filename s := rfl

theorem fetch_error_eq (wikipage : String → Except PyExn (String × List String))
    (title : String) (e : PyExn) (h : wikipage title = .error e) :
    fetch_page_references wikipage title =
      { title := title, references := [], error := some (describe e) } := by
  unfold fetch_page_references
  rw [h]
  cases e <;> rfl

theorem fetch_ok_eq (wikipage : String → Except PyExn (String × List String))
    (title c : String) (refs : List String) (h : wikipage title = .ok (c, refs)) :
    fetch_page_references wikipage title = { title := c, references := refs } := by
  unfold fetch_page_references
  rw [h]

theorem save_skip (env : Env) (r : FetchResult) (fs : FS) (h : r.error.isSome = true) :
    save_references env r fs = .ok (none, fs) := by
  unfold save_references
  rw [if_pos h]

theorem save_write (env : Env) (r : FetchResult) (fs : FS) (h : r.error = none)
    (hw : env.writeErr (safe_filename r.title ++ ".txt") = none) :
    save_references env r fs =
      .ok (some (safe_filename r.title ++ ".txt"),
        fsWrite fs (safe_filename r.title ++ ".txt")
          (String.intercalate "\n" r.references)) := by
  simp [save_references, h, hw]

theorem save_raise (env : Env) (r : FetchResult) (fs : FS) (m : String)
    (h : r.error = none)
    (hw : env.writeErr (safe_filename r.title ++ ".txt") = some m) :
    save_references env r fs = .error m := by
  simp [save_references, h, hw]

theorem seqStep_skip (env : Env) (st : RunState) (t s : String)
    (herr : (fetch_page_references env.wikipage t).error = some s) :
    seqStep env st t = .ok { st with
      skipped := st.skipped + 1,
      log := st.log ++ ["– skipped " ++ t ++ " (" ++ s ++ ")"] } := by
  have hs : save_references env (fetch_page_references env.wikipage t) st.fs =
      .ok (none, st.fs) :=
    save_skip env _ st.fs (by rw [herr]; rfl)
  simp only [seqStep, hs, herr, Option.getD_some]

theorem seqStep_write (env : Env) (st : RunState) (t : String)
    (herr : (fetch_page_references env.wikipage t).error = none)
    (hw : env.writeErr (storageKey env t) = none) :
    seqStep env st t = .ok { st with
      ok := st.ok + 1,
      fs := fsWrite st.fs (storageKey env t) (storageContent env t),
      log := st.log ++ ["✓ wrote " ++ storageKey env t] } := by
  have hs := save_write env (fetch_page_references env.wikipage t) st.fs herr hw
  simp only [seqStep, hs]
  rfl

theorem seqStep_raise (env : Env) (st : RunState) (t m : String)
    (herr : (fetch_page_references env.wikipage t).error = none)
    (hw : env.writeErr (storageKey env t) = some m) :
    seqStep env st t = .error m := by
  have hs := save_raise env (fetch_page_references env.wikipage t) st.fs m herr hw
  simp only [seqStep, hs]

theorem process_worker_skip (env : Env) (t : String) (fs : FS) (s : String)
    (herr : (fetch_page_references env.wikipage t).error = some s) :
    process_worker env t fs = .ok ((t, some s), fs) := by
  unfold process_worker
  rw [if_pos (by rw [herr]; rfl), herr]

theorem process_worker_write (env : Env) (t : String) (fs : FS)
    (herr : (fetch_page_references env.wikipage t).error = none)
    (hw : env.writeErr (storageKey env t) = none) :
    process_worker env t fs =
      .ok ((storageKey env t, none),
        fsWrite fs (storageKey env t) (storageContent env t)) := by
  unfold process_worker
  rw [if_neg (by rw [herr]; simp), save_write env _ fs herr hw]
  rfl

theorem process_worker_raise (env : Env) (t : String) (fs : FS) (m : String)
    (herr : (fetch_page_references env.wikipage t).error = none)
    (hw : env.writeErr (storageKey env t) = some m) :
    process_worker env t fs = .error m := by
  unfold process_worker
  rw [if_neg (by rw [herr]; simp), save_raise env _ fs m herr hw]

theorem workerReply_skip (env : Env) (t s : String)
    (herr : (fetch_page_references env.wikipage t).error = some s) :
    workerReply env t = .ok (t, some s) := by
  rw [workerReply, process_worker_skip env t [] s herr]
  rfl

theorem workerReply_write (env : Env) (t : String)
    (herr : (fetch_page_references env.wikipage t).error = none)
    (hw : env.writeErr (storageKey env t) = none) :
    workerReply env t = .ok (storageKey env t, none) := by
  rw [workerReply, process_worker_write env t [] herr hw]
  rfl

theorem workerReply_raise (env : Env) (t m : String)
    (herr : (fetch_page_references env.wikipage t).error = none)
    (hw : env.writeErr (storageKey env t) = some m) :
    workerReply env t = .error m := by
  rw [workerReply, process_worker_raise env t [] m herr hw]
  rfl

theorem poolStep_eq (env : Env) (tag : String) (st : RunState) (t : String) :
    poolStep env tag st t = { st with
      ok := st.ok + (if replyOk env t then 1 else 0),
      skipped := st.skipped + (if replyOk env t then 0 else 1),
      log := st.log ++ [poolLine env tag t] } := by
  cases h : workerReply env t with
  | ok pr =>
      rcases pr with ⟨n, eo⟩
      cases eo with
      | none => simp [poolStep, replyOk, poolLine, h]
      | some err => simp [poolStep, replyOk, poolLine, h]
  | error e => simp [poolStep, replyOk, poolLine, h]

theorem pool_fold (env : Env) (tag : String) :
    ∀ (d : List String) (st : RunState),
      d.foldl (poolStep env tag) st = { st with
        ok := st.ok + List.countP (replyOk env) d,
        skipped := st.skipped + List.countP (fun t => !replyOk env t) d,
        log := st.log ++ d.map (poolLine env tag) } := by
  intro d
  induction d with
  | nil => intro st; simp
  | cons a d ih =>
    intro st
    rw [List.foldl_cons, poolStep_eq, ih]
    simp only [RunState.mk.injEq, List.countP_cons, List.map_cons]
    refine ⟨?_, ?_, trivial, ?_⟩
    · by_cases h : replyOk env a = true <;> simp [h] <;> omega
    · by_cases h : replyOk env a = true <;> simp [h] <;> omega
    · simp

theorem poolWritesStep (env : Env) (fs : FS) (t : String) :
    (match process_worker env t fs with
      | .ok (_, fs1) => fs1
      | .error _ => fs) = writeStep env fs t := by
  cases herr : (fetch_page_references env.wikipage t).error with
  | some s =>
      rw [process_worker_skip env t fs s herr, writeStep, if_neg]
      simp [writeHappens, fetchOk, herr]
  | none =>
      cases hw : env.writeErr (storageKey env t) with
      | none =>
          rw [process_worker_write env t fs herr hw, writeStep, if_pos]
          simp [writeHappens, fetchOk, herr, hw]
      | some m =>
          rw [process_worker_raise env t fs m herr hw, writeStep, if_neg]
          simp [writeHappens, fetchOk, herr, hw]

theorem poolWrites_eq (env : Env) :
    ∀ (order : List String) (fs : FS),
      poolWrites env order fs = List.foldl (writeStep env) fs order := by
  intro order
  induction order with
  | nil => intro fs; rfl
  | cons t rest ih =>
    intro fs
    simp only [poolWrites] at ih ⊢
    simp only [List.foldl_cons]
    rw [poolWritesStep env fs t, ih]

theorem run_threads_eq (env : Env) (wo d : List String) :
    run_threads env wo d = .ok {
      ok := List.countP (replyOk env) d,
      skipped := List.countP (fun t => !replyOk env t) d,
      fs := List.foldl (writeStep env) [] wo,
      log := d.map (poolLine env "thread error") } := by
  rw [run_threads, pool_fold, poolWrites_eq]
  simp

theorem run_processes_eq (env : Env) (wo d : List String) :
    run_processes env wo d = .ok {
      ok := List.countP (replyOk env) d,
      skipped := List.countP (fun t => !replyOk env t) d,
      fs := List.foldl (writeStep env) [] wo,
      log := d.map (poolLine env "process error") } := by
  rw [run_processes, pool_fold, poolWrites_eq]
  simp

theorem replyOk_skip (env : Env) (t s : String)
    (herr : (fetch_page_references env.wikipage t).error = some s) :
    replyOk env t = false := by
  rw [replyOk, workerReply_skip env t s herr]

theorem replyOk_write (env : Env) (t : String)
    (herr : (fetch_page_references env.wikipage t).error = none)
    (hw : env.writeErr (storageKey env t) = none) :
    replyOk env t = true := by
  rw [replyOk, workerReply_write env t herr hw]

theorem replyOk_raise (env : Env) (t m : String)
    (herr : (fetch_page_references env.wikipage t).error = none)
    (hw : env.writeErr (storageKey env t) = some m) :
    replyOk env t = false := by
  rw [replyOk, workerReply_raise env t m herr hw]

theorem replyOk_eq_fetchOk (env : Env) (hw : ∀ k, env.writeErr k = none)
    (t : String) : replyOk env t = fetchOk env t := by
  cases herr : (fetch_page_references env.wikipage t).error with
  | some s => rw [replyOk_skip env t s herr, fetchOk, herr]; rfl
  | none => rw [replyOk_write env t herr (hw _), fetchOk, herr]; rfl

theorem seqLine_skip (env : Env) (t s : String)
    (herr : (fetch_page_references env.wikipage t).error = some s) :
    seqLine env t = "– skipped " ++ t ++ " (" ++ s ++ ")" := by
  rw [seqLine, if_neg, herr, Option.getD_some]
  rw [fetchOk, herr]
  simp

theorem seqLine_write (env : Env) (t : String)
    (herr : (fetch_page_references env.wikipage t).error = none) :
    seqLine env t = "✓ wrote " ++ storageKey env t := by
  rw [seqLine, if_pos]
  rw [fetchOk, herr]
  rfl

theorem writeStep_skip (env : Env) (fs : FS) (t s : String)
    (herr : (fetch_page_references env.wikipage t).error = some s) :
    writeStep env fs t = fs := by
  rw [writeStep, if_neg]
  simp [writeHappens, fetchOk, herr]

theorem writeStep_raise (env : Env) (fs : FS) (t m : String)
    (hww : env.writeErr (storageKey env t) = some m) :
    writeStep env fs t = fs := by
  rw [writeStep, if_neg]
  simp [writeHappens, hww]

theorem writeStep_write (env : Env) (fs : FS) (t : String)
    (herr : (fetch_page_references env.wikipage t).error = none)
    (hww : env.writeErr (storageKey env t) = none) :
    writeStep env fs t = fsWrite fs (storageKey env t) (storageContent env t) := by
  rw [writeStep, if_pos]
  simp [writeHappens, fetchOk, herr, hww]

theorem run_sequential_from_nil (env : Env) (st : RunState) :
    run_sequential_from env st [] = .ok st := rfl

theorem run_sequential_from_cons_ok (env : Env) (st st1 : RunState) (t : String)
    (rest : List String) (h : seqStep env st t = .ok st1) :
    run_sequential_from env st (t :: rest) = run_sequential_from env st1 rest := by
  simp only [run_sequential_from, h]

theorem run_sequential_from_cons_raise (env : Env) (st : RunState) (t m : String)
    (rest : List String) (h : seqStep env st t = .error m) :
    run_sequential_from env st (t :: rest) = .error m := by
  simp only [run_sequential_from, h]

theorem seq_from_counts (env : Env) :
    ∀ (ts : List String) (st0 stf : RunState),
      run_sequential_from env st0 ts = .ok stf →
      stf.ok + stf.skipped = st0.ok + st0.skipped + ts.length := by
  intro ts
  induction ts with
  | nil =>
      intro st0 stf h
      rw [run_sequential_from_nil] at h
      cases h
      simp
  | cons t rest ih =>
      intro st0 stf h
      cases hs : seqStep env st0 t with
      | error e => rw [run_sequential_from_cons_raise env st0 t e rest hs] at h; cases h
      | ok st1 =>
          rw [run_sequential_from_cons_ok env st0 st1 t rest hs] at h
          have h2 := ih st1 stf h
          have h3 : st1.ok + st1.skipped = st0.ok + st0.skipped + 1 := by
            cases herr : (fetch_page_references env.wikipage t).error with
            | some s =>
                rw [seqStep_skip env st0 t s herr] at hs
                injection hs with h4
                rw [← h4]
                simp
                omega
            | none =>
                cases hww : env.writeErr (storageKey env t) with
                | none =>
                    rw [seqStep_write env st0 t herr hww] at hs
                    injection hs with h4
                    rw [← h4]
                    simp
                    omega
                | some m =>
                    rw [seqStep_raise env st0 t m herr hww] at hs
                    cases hs
          rw [List.length_cons]
          omega

theorem seq_from_eq (env : Env) (hw : ∀ k, env.writeErr k = none) :
    ∀ (ts : List String) (st : RunState),
      run_sequential_from env st ts = .ok { st with
        ok := st.ok + List.countP (fetchOk env) ts,
        skipped := st.skipped + List.countP (fun t => !fetchOk env t) ts,
        fs := List.foldl (writeStep env) st.fs ts,
        log := st.log ++ ts.map (seqLine env) } := by
  intro ts
  induction ts with
  | nil =>
      intro st
      rw [run_sequential_from_nil]
      simp
  | cons t rest ih =>
      intro st
      cases herr : (fetch_page_references env.wikipage t).error with
      | some s =>
          rw [run_sequential_from_cons_ok env st _ t rest (seqStep_skip env st t s herr),
            ih]
          have hf : fetchOk env t = false := by rw [fetchOk, herr]; rfl
          simp only [Except.ok.injEq, RunState.mk.injEq, List.countP_cons, List.map_cons,
            hf, List.foldl_cons, writeStep_skip env st.fs t s herr,
            seqLine_skip env t s herr]
          refine ⟨by simp +arith, by simp +arith, trivial, by simp⟩
      | none =>
          rw [run_sequential_from_cons_ok env st _ t rest
            (seqStep_write env st t herr (hw _)), ih]
          have hf : fetchOk env t = true := by rw [fetchOk, herr]; rfl
          simp only [Except.ok.injEq, RunState.mk.injEq, List.countP_cons, List.map_cons,
            hf, List.foldl_cons, writeStep_write env st.fs t herr (hw _),
            seqLine_write env t herr]
          refine ⟨by simp +arith, by simp +arith, trivial, by simp⟩

theorem mem_fsKeys_fsWrite {fs : FS} {key content k : String} :
    k ∈ fsKeys (fsWrite fs key content) ↔ k = key ∨ k ∈ fsKeys fs := by
  simp only [fsKeys, fsWrite, List.map_cons, List.mem_cons, List.mem_map,
    List.mem_filter, bne_iff_ne]
  constructor
  · rintro (h | ⟨kv, ⟨hkv, _⟩, rfl⟩)
    · exact Or.inl h
    · exact Or.inr ⟨kv, hkv, rfl⟩
  · rintro (h | ⟨kv, hkv, rfl⟩)
    · exact Or.inl h
    · by_cases he : kv.1 = key
      · exact Or.inl he
      · exact Or.inr ⟨kv, ⟨hkv, he⟩, rfl⟩

theorem fsGet_fsWrite_self (fs : FS) (key content : String) :
    fsGet (fsWrite fs key content) key = some content := by
  simp [fsGet, fsWrite, List.find?_cons]

theorem find?_filter_ne (fs : FS) (key k : String) (h : k ≠ key) :
    List.find? (fun kv => kv.1 == k) (List.filter (fun kv => kv.1 != key) fs) =
      List.find? (fun kv => kv.1 == k) fs := by
  induction fs with
  | nil => rfl
  | cons kv rest ih =>
    by_cases he : kv.1 = key
    · have h1 : (kv.1 != key) = false := by simp [he]
      have h2 : (kv.1 == k) = false := by simp [he, Ne.symm h]
      simp [List.filter_cons, h1, List.find?_cons, h2, ih]
    · have h1 : (kv.1 != key) = true := by simp [he]
      by_cases hk : kv.1 = k
      · simp [List.filter_cons, h1, List.find?_cons, hk, h]
      · simp [List.filter_cons, h1, List.find?_cons, hk, h, ih]

theorem fsGet_fsWrite_other (fs : FS) (key content k : String) (h : k ≠ key) :
    fsGet (fsWrite fs key content) k = fsGet fs k := by
  have h2 : (key == k) = false := by simpa using Ne.symm h
  simp only [fsGet, fsWrite, List.find?_cons, h2]
  rw [find?_filter_ne fs key k h]

theorem mem_fsKeys_foldl_writeStep (env : Env) :
    ∀ (order : List String) (fs : FS) (k : String),
      k ∈ fsKeys (List.foldl (writeStep env) fs order) ↔
        k ∈ fsKeys fs ∨ ∃ t ∈ order, writeHappens env t = true ∧ k = storageKey env t := by
  intro order
  induction order with
  | nil => intro fs k; simp
  | cons t rest ih =>
    intro fs k
    rw [List.foldl_cons, ih]
    by_cases hwh : writeHappens env t = true
    · rw [writeStep, if_pos hwh]
      rw [mem_fsKeys_fsWrite]
      constructor
      · rintro ((h | h) | ⟨u, hu, hw2, rfl⟩)
        · exact Or.inr ⟨t, List.mem_cons_self t rest, hwh, h⟩
        · exact Or.inl h
        · exact Or.inr ⟨u, List.mem_cons_of_mem t hu, hw2, rfl⟩
      · rintro (h | ⟨u, hu, hw2, rfl⟩)
        · exact Or.inl (Or.inr h)
        · rcases List.mem_cons.mp hu with rfl | hu2
          · exact Or.inl (Or.inl rfl)
          · exact Or.inr ⟨u, hu2, hw2, rfl⟩
    · rw [writeStep, if_neg hwh]
      constructor
      · rintro (h | ⟨u, hu, hw2, rfl⟩)
        · exact Or.inl h
        · exact Or.inr ⟨u, List.mem_cons_of_mem t hu, hw2, rfl⟩
      · rintro (h | ⟨u, hu, hw2, rfl⟩)
        · exact Or.inl h
        · rcases List.mem_cons.mp hu with rfl | hu2
          · exact absurd hw2 hwh
          · exact Or.inr ⟨u, hu2, hw2, rfl⟩

theorem seq_from_fs (env : Env) :
    ∀ (ts : List String) (st stf : RunState),
      run_sequential_from env st ts = .ok stf →
      ∀ k, k ∈ fsKeys stf.fs →
        k ∈ fsKeys st.fs ∨ ∃ t ∈ ts, fetchOk env t = true ∧ k = storageKey env t := by
  intro ts
  induction ts with
  | nil =>
      intro st stf h k hk
      rw [run_sequential_from_nil] at h
      cases h
      exact Or.inl hk
  | cons t rest ih =>
      intro st stf h k hk
      cases herr : (fetch_page_references env.wikipage t).error with
      | some s =>
          rw [run_sequential_from_cons_ok env st _ t rest (seqStep_skip env st t s herr)]
            at h
          rcases ih _ stf h k hk with h2 | ⟨u, hu, hf, rfl⟩
          · exact Or.inl h2
          · exact Or.inr ⟨u, List.mem_cons_of_mem t hu, hf, rfl⟩
      | none =>
          cases hww : env.writeErr (storageKey env t) with
          | some m =>
              rw [run_sequential_from_cons_raise env st t m rest
                (seqStep_raise env st t m herr hww)] at h
              cases h
          | none =>
              rw [run_sequential_from_cons_ok env st _ t rest
                (seqStep_write env st t herr hww)] at h
              rcases ih _ stf h k hk with h2 | ⟨u, hu, hf, rfl⟩
              · rcases mem_fsKeys_fsWrite.mp h2 with rfl | h3
                · exact Or.inr ⟨t, List.mem_cons_self t rest,
                    by rw [fetchOk, herr]; rfl, rfl⟩
                · exact Or.inl h3
              · exact Or.inr ⟨u, List.mem_cons_of_mem t hu, hf, rfl⟩

theorem countP_add_countP_not {α : Type} (p : α → Bool) (l : List α) :
    List.countP p l + List.countP (fun a => !p a) l = l.length := by
  induction l with
  | nil => rfl
  | cons a t ih =>
      by_cases h : p a = true <;> simp [List.countP_cons, h] <;> omega

theorem mem_keys_perm (env : Env) {l1 l2 : List String} (hp : l1.Perm l2)
    (fs0 : FS) (k : String) :
    k ∈ fsKeys (List.foldl (writeStep env) fs0 l1) ↔
      k ∈ fsKeys (List.foldl (writeStep env) fs0 l2) := by
  rw [mem_fsKeys_foldl_writeStep, mem_fsKeys_foldl_writeStep]
  constructor
  · rintro (h | ⟨u, hu, hh, rfl⟩)
    · exact Or.inl h
    · exact Or.inr ⟨u, hp.mem_iff.mp hu, hh, rfl⟩
  · rintro (h | ⟨u, hu, hh, rfl⟩)
    · exact Or.inl h
    · exact Or.inr ⟨u, hp.mem_iff.mpr hu, hh, rfl⟩

/-- Stub environment for the concrete scenario of the spec: fetching "A"
succeeds with payload ["r1", "r2"], "B" times out, "C" succeeds with an empty
payload; every write succeeds. -/
def envC6 : Env where
  wikipage := fun t =>
    if t = "A" then .ok ("A", ["r1", "r2"])
    else if t = "C" then .ok ("C", [])
    else .error (.timeout "request timed out")
  writeErr := fun _ => none

/-- Environment whose content source always succeeds but whose storage
rejects every write (for instance a read-only directory). -/
def envWriteBoom : Env where
  wikipage := fun t => .ok (t, [])
  writeErr := fun _ => some "boom"

/-- Environment where the worker for "A" crashes while persisting (its write
raises), "B" fails to fetch, and every other title succeeds end to end. -/
def envCrash : Env where
  wikipage := fun t =>
    if t = "B" then .error (.pageError "no page") else .ok (t, ["x"])
  writeErr := fun k => if k = "A.txt" then some "boom" else none

/-- C2: `fetch_page_references` never propagates a content-source exception:
every exception the source can raise (disambiguation, page-not-found,
timeout, or any other) is converted into a `FetchResult` whose `error` field
is the non-`None` tagged detail string.  Totality of the embedded function
over every environment is the no-escape property itself. -/
theorem c2_total_capture (wikipage : String → Except PyExn (String × List String))
    (title : String) (e : PyExn) (h : wikipage title = .error e) :
    (fetch_page_references wikipage title).error = some (describe e) := by
  rw [fetch_error_eq wikipage title e h]

theorem c2_witness :
    ((fun _ => .error (.timeout "boom") : String → Except PyExn (String × List String))
        "A" = .error (.timeout "boom")) ∧
    (fetch_page_references (fun _ => .error (.timeout "boom")) "A").error =
      some (describe (.timeout "boom")) :=
  ⟨rfl, c2_total_capture (fun _ => .error (.timeout "boom")) "A" (.timeout "boom") rfl⟩

/-- C9: whenever `fetch_page_references` fails, the result keeps the
requested identifier as its `title` and has an empty `references` list; hence
only successful outcomes can carry a differing canonical title or a non-empty
payload. -/
theorem c9_failure_shape (wikipage : String → Except PyExn (String × List String))
    (title : String) (h : (fetch_page_references wikipage title).error ≠ none) :
    (fetch_page_references wikipage title).title = title ∧
    (fetch_page_references wikipage title).references = [] := by
  cases hw : wikipage title with
  | ok pr =>
      exfalso
      apply h
      rcases pr with ⟨c, refs⟩
      rw [fetch_ok_eq wikipage title c refs hw]
  | error e =>
      rw [fetch_error_eq wikipage title e hw]
      exact ⟨rfl, rfl⟩

theorem c9_witness :
    ((fetch_page_references envC6.wikipage "B").error ≠ none) ∧
    (fetch_page_references envC6.wikipage "B").title = "B" ∧
    (fetch_page_references envC6.wikipage "B").references = [] :=
  ⟨by decide, c9_failure_shape envC6.wikipage "B" (by decide)⟩

/-- C5: a `FetchResult` carrying an error makes `save_references` return
`None` with the directory unchanged, and under each of the three strategies
every file present at the end stems from an identifier whose fetch succeeded
— a failure outcome never produces a file. -/
theorem c5_failure_writes_nothing :
    (∀ (env : Env) (r : FetchResult) (fs : FS), r.error.isSome = true →
      save_references env r fs = .ok (none, fs)) ∧
    (∀ (env : Env) (titles : List String) (st : RunState),
      run_sequential env titles = .ok st →
      ∀ k ∈ fsKeys st.fs, ∃ t ∈ titles, fetchOk env t = true ∧ k = storageKey env t) ∧
    (∀ (env : Env) (wo d : List String) (st : RunState),
      run_threads env wo d = .ok st →
      ∀ k ∈ fsKeys st.fs, ∃ t ∈ wo, fetchOk env t = true ∧ k = storageKey env t) ∧
    (∀ (env : Env) (wo d : List String) (st : RunState),
      run_processes env wo d = .ok st →
      ∀ k ∈ fsKeys st.fs, ∃ t ∈ wo, fetchOk env t = true ∧ k = storageKey env t) := by
  have hpool : ∀ (env : Env) (wo : List String) (k : String),
      k ∈ fsKeys (List.foldl (writeStep env) [] wo) →
      ∃ t ∈ wo, fetchOk env t = true ∧ k = storageKey env t := by
    intro env wo k hk
    rcases (mem_fsKeys_foldl_writeStep env wo [] k).mp hk with h | ⟨t, ht, hh, rfl⟩
    · simp [fsKeys] at h
    · refine ⟨t, ht, ?_, rfl⟩
      rw [writeHappens, Bool.and_eq_true] at hh
      exact hh.1
  refine ⟨?_, ?_, ?_, ?_⟩
  · intro env r fs h
    exact save_skip env r fs h
  · intro env titles st h k hk
    rcases seq_from_fs env titles {} st h k hk with h2 | h2
    · simp [fsKeys] at h2
    · exact h2
  · intro env wo d st h k hk
    rw [run_threads_eq] at h
    injection h with h2
    rw [← h2] at hk
    exact hpool env wo k hk
  · intro env wo d st h k hk
    rw [run_processes_eq] at h
    injection h with h2
    rw [← h2] at hk
    exact hpool env wo k hk

theorem c5_witness :
    save_references envC6 ⟨"B", [], some "Timeout: request timed out"⟩ [] =
      .ok (none, []) ∧
    (∃ t ∈ ["A"], fetchOk envC6 t = true ∧ "A.txt" = storageKey envC6 t) :=
  ⟨c5_failure_writes_nothing.1 envC6 _ [] rfl,
   c5_failure_writes_nothing.2.1 envC6 ["A"]
     { ok := 1, skipped := 0, fs := [("A.txt", "r1\nr2")], log := ["✓ wrote A.txt"] }
     (by rfl) "A.txt" (by simp [fsKeys])⟩

/-- C8: for a success result whose write goes through, `save_references`
writes exactly one file, named by the sanitized canonical title plus the
fixed ".txt" extension, whose content is the payload joined with newlines
(and nothing else); every other file is untouched. -/
theorem c8_success_artifact (env : Env) (r : FetchResult) (fs : FS)
    (hs : r.error = none)
    (hw : env.writeErr (safe_filename r.title ++ ".txt") = none) :
    save_references env r fs =
      .ok (some (safe_filename r.title ++ ".txt"),
        fsWrite fs (safe_filename r.title ++ ".txt")
          (String.intercalate "\n" r.references)) ∧
    fsGet (fsWrite fs (safe_filename r.title ++ ".txt")
        (String.intercalate "\n" r.references))
      (safe_filename r.title ++ ".txt") = some (String.intercalate "\n" r.references) ∧
    (∀ k, k ≠ safe_filename r.title ++ ".txt" →
      fsGet (fsWrite fs (safe_filename r.title ++ ".txt")
        (String.intercalate "\n" r.references)) k = fsGet fs k) :=
  ⟨save_write env r fs hs hw, fsGet_fsWrite_self _ _ _,
   fun k hk => fsGet_fsWrite_other _ _ _ k hk⟩

theorem c8_witness :
    save_references envC6 { title := "A", references := ["r1", "r2"] } [] =
      .ok (some "A.txt", [("A.txt", "r1\nr2")]) ∧
    fsGet [("A.txt", "r1\nr2")] "A.txt" = some "r1\nr2" ∧
    fsGet [("A.txt", "r1\nr2")] "B.txt" = none := by
  have h := c8_success_artifact envC6 { title := "A", references := ["r1", "r2"] } []
    rfl rfl
  exact ⟨h.1, h.2.1, by
    have h2 := h.2.2 "B.txt" (by decide)
    simpa using h2⟩

/-- C1: for every input sequence and each strategy, an aggregate returned by
the strategy satisfies `ok + skipped = n` where `n` is the number of
submitted identifiers (both counters are natural numbers, hence
non-negative); for the pool strategies the completions are delivered in an
arbitrary permutation of the input. -/
theorem c1_aggregate_invariant (env : Env) (titles wo d wo2 d2 : List String)
    (hd : d.Perm titles) (hd2 : d2.Perm titles) :
    (∀ st, run_sequential env titles = .ok st →
      st.ok + st.skipped = titles.length) ∧
    (∀ st, run_threads env wo d = .ok st → st.ok + st.skipped = titles.length) ∧
    (∀ st, run_processes env wo2 d2 = .ok st →
      st.ok + st.skipped = titles.length) := by
  refine ⟨?_, ?_, ?_⟩
  · intro st h
    have h2 := seq_from_counts env titles {} st h
    simpa using h2
  · intro st h
    rw [run_threads_eq] at h
    injection h with h2
    rw [← h2]
    exact (countP_add_countP_not (replyOk env) d).trans hd.length_eq
  · intro st h
    rw [run_processes_eq] at h
    injection h with h2
    rw [← h2]
    exact (countP_add_countP_not (replyOk env) d2).trans hd2.length_eq

theorem c1_witness :
    (∀ st, run_sequential envC6 ["A", "B", "C"] = .ok st →
      st.ok + st.skipped = (["A", "B", "C"] : List String).length) ∧
    (∀ st, run_threads envC6 ["A", "B", "C"] ["C", "A", "B"] = .ok st →
      st.ok + st.skipped = (["A", "B", "C"] : List String).length) ∧
    (∀ st, run_processes envC6 ["A", "B", "C"] ["B", "C", "A"] = .ok st →
      st.ok + st.skipped = (["A", "B", "C"] : List String).length) :=
  c1_aggregate_invariant envC6 ["A", "B", "C"] ["A", "B", "C"] ["C", "A", "B"]
    ["A", "B", "C"] ["B", "C", "A"] (by decide) (by decide)

/-- C3 counterexample: when persisting an item crashes (the write for
"A.txt" raises), the exception escapes `run_sequential` itself: the claim
fails for the sequential strategy. -/
theorem c3_counterexample :
    run_sequential envWriteBoom ["A"] = Except.error "boom" := rfl

/-- C3 amended: no exception escapes `run_threads` or `run_processes` even if
the per-item work crashes, and none escapes `run_sequential` provided no
write raises; an exception raised while persisting an item does escape
`run_sequential` (see the counterexample). -/
theorem c3_amended_no_escape (env : Env) (titles wo d wo2 d2 : List String) :
    (run_threads env wo d).isOk = true ∧
    (run_processes env wo2 d2).isOk = true ∧
    ((∀ k, env.writeErr k = none) → (run_sequential env titles).isOk = true) := by
  refine ⟨rfl, rfl, ?_⟩
  intro hw
  rw [run_sequential, seq_from_eq env hw]
  rfl

theorem c3_witness :
    (∀ k, envC6.writeErr k = none) ∧
    (run_threads envC6 ["A"] ["A"]).isOk = true ∧
    (run_processes envC6 ["A"] ["A"]).isOk = true ∧
    (run_sequential envC6 ["A", "B"]).isOk = true := by
  have h := c3_amended_no_escape envC6 ["A", "B"] ["A"] ["A"] ["A"] ["A"]
  exact ⟨fun _ => rfl, h.1, h.2.1, h.2.2 (fun _ => rfl)⟩

/-- C4: with a deterministic content-source stub and storage that accepts all
writes, the three strategies return the same counters and the same set of
written file names, for every write order and completion-delivery order of
the two pool strategies. -/
theorem c4_strategies_agree (env : Env) (hw : ∀ k, env.writeErr k = none)
    (titles wo d wo2 d2 : List String) (hwo : wo.Perm titles) (hd : d.Perm titles)
    (hwo2 : wo2.Perm titles) (hd2 : d2.Perm titles) :
    ∃ s t p, run_sequential env titles = .ok s ∧ run_threads env wo d = .ok t ∧
      run_processes env wo2 d2 = .ok p ∧
      t.ok = s.ok ∧ t.skipped = s.skipped ∧ p.ok = s.ok ∧ p.skipped = s.skipped ∧
      (∀ k, k ∈ fsKeys t.fs ↔ k ∈ fsKeys s.fs) ∧
      (∀ k, k ∈ fsKeys p.fs ↔ k ∈ fsKeys s.fs) := by
  have hcong : ∀ (l : List String),
      List.countP (replyOk env) l = List.countP (fetchOk env) l := by
    intro l
    exact List.countP_congr (fun t _ => by rw [replyOk_eq_fetchOk env hw t])
  have hcong2 : ∀ (l : List String),
      List.countP (fun t => !replyOk env t) l =
        List.countP (fun t => !fetchOk env t) l := by
    intro l
    exact List.countP_congr (fun t _ => by rw [replyOk_eq_fetchOk env hw t])
  refine ⟨_, _, _, seq_from_eq env hw titles {}, run_threads_eq env wo d,
    run_processes_eq env wo2 d2, ?_, ?_, ?_, ?_, ?_, ?_⟩
  · show List.countP (replyOk env) d = ({} : RunState).ok + _
    rw [hcong d, hd.countP_eq]
    simp
  · show List.countP (fun t => !replyOk env t) d = ({} : RunState).skipped + _
    rw [hcong2 d, hd.countP_eq]
    simp
  · show List.countP (replyOk env) d2 = ({} : RunState).ok + _
    rw [hcong d2, hd2.countP_eq]
    simp
  · show List.countP (fun t => !replyOk env t) d2 = ({} : RunState).skipped + _
    rw [hcong2 d2, hd2.countP_eq]
    simp
  · intro k
    exact mem_keys_perm env hwo [] k
  · intro k
    exact mem_keys_perm env hwo2 [] k

theorem c4_witness :
    (∀ k, envC6.writeErr k = none) ∧
    (∃ s t p, run_sequential envC6 ["A", "B", "C"] = .ok s ∧
      run_threads envC6 ["B", "A", "C"] ["C", "A", "B"] = .ok t ∧
      run_processes envC6 ["C", "B", "A"] ["B", "C", "A"] = .ok p ∧
      t.ok = s.ok ∧ t.skipped = s.skipped ∧ p.ok = s.ok ∧ p.skipped = s.skipped ∧
      (∀ k, k ∈ fsKeys t.fs ↔ k ∈ fsKeys s.fs) ∧
      (∀ k, k ∈ fsKeys p.fs ↔ k ∈ fsKeys s.fs)) :=
  ⟨fun _ => rfl,
   c4_strategies_agree envC6 (fun _ => rfl) ["A", "B", "C"] ["B", "A", "C"]
     ["C", "A", "B"] ["C", "B", "A"] ["B", "C", "A"]
     (by decide) (by decide) (by decide) (by decide)⟩

/-- C7: under both pool strategies, a worker whose task raises an uncaught
exception for one identifier `t` is tallied as one extra skip whose status
line carries the orchestration-level tag, while the counters, directory and
status lines for all other identifiers are exactly those of the batch with
`t` removed. -/
theorem c7_crash_isolation (env : Env) (t e : String) (wo d : List String)
    (hc : workerReply env t = .error e) (h1 : d.count t = 1) :
    ∃ st st2 su su2,
      run_threads env wo d = .ok st ∧
      run_threads env wo (d.erase t) = .ok st2 ∧
      st.ok = st2.ok ∧ st.skipped = st2.skipped + 1 ∧ st.fs = st2.fs ∧
      st.log.Perm (st2.log ++
        ["– skipped " ++ t ++ " (thread error: " ++ e ++ ")"]) ∧
      run_processes env wo d = .ok su ∧
      run_processes env wo (d.erase t) = .ok su2 ∧
      su.ok = su2.ok ∧ su.skipped = su2.skipped + 1 ∧ su.fs = su2.fs ∧
      su.log.Perm (su2.log ++
        ["– skipped " ++ t ++ " (process error: " ++ e ++ ")"]) := by
  have hmem : t ∈ d := List.count_pos_iff.mp (by omega)
  have hperm : d.Perm (t :: d.erase t) := List.perm_cons_erase hmem
  have hro : replyOk env t = false := by rw [replyOk, hc]
  have hok : List.countP (replyOk env) d = List.countP (replyOk env) (d.erase t) := by
    rw [hperm.countP_eq, List.countP_cons]
    simp [hro]
  have hsk : List.countP (fun u => !replyOk env u) d =
      List.countP (fun u => !replyOk env u) (d.erase t) + 1 := by
    rw [hperm.countP_eq, List.countP_cons]
    simp [hro]
  have hlog : ∀ tag : String, (d.map (poolLine env tag)).Perm
      ((d.erase t).map (poolLine env tag) ++ [poolLine env tag t]) := by
    intro tag
    have h2 := hperm.map (poolLine env tag)
    exact h2.trans (List.perm_append_singleton _ _).symm
  have hline : ∀ tag : String, poolLine env tag t =
      "– skipped " ++ t ++ " (" ++ tag ++ ": " ++ e ++ ")" := by
    intro tag
    rw [poolLine, hc]
  refine ⟨_, _, _, _, run_threads_eq env wo d, run_threads_eq env wo (d.erase t),
    hok, hsk, rfl, ?_, run_processes_eq env wo d,
    run_processes_eq env wo (d.erase t), hok, hsk, rfl, ?_⟩
  · have h4 : poolLine env "thread error" t =
        "– skipped " ++ t ++ " (thread error: " ++ e ++ ")" := by
      rw [hline "thread error"]
      simp [String.append_assoc]
    rw [← h4]
    exact hlog "thread error"
  · have h4 : poolLine env "process error" t =
        "– skipped " ++ t ++ " (process error: " ++ e ++ ")" := by
      rw [hline "process error"]
      simp [String.append_assoc]
    rw [← h4]
    exact hlog "process error"

theorem c7_witness :
    workerReply envCrash "A" = Except.error "boom" ∧
    (["A", "B", "C"] : List String).count "A" = 1 ∧
    (∃ st st2 su su2,
      run_threads envCrash ["A", "B", "C"] ["A", "B", "C"] = .ok st ∧
      run_threads envCrash ["A", "B", "C"] (["A", "B", "C"].erase "A") = .ok st2 ∧
      st.ok = st2.ok ∧ st.skipped = st2.skipped + 1 ∧ st.fs = st2.fs ∧
      st.log.Perm (st2.log ++
        ["– skipped " ++ "A" ++ " (thread error: " ++ "boom" ++ ")"]) ∧
      run_processes envCrash ["A", "B", "C"] ["A", "B", "C"] = .ok su ∧
      run_processes envCrash ["A", "B", "C"] (["A", "B", "C"].erase "A") = .ok su2 ∧
      su.ok = su2.ok ∧ su.skipped = su2.skipped + 1 ∧ su.fs = su2.fs ∧
      su.log.Perm (su2.log ++
        ["– skipped " ++ "A" ++ " (process error: " ++ "boom" ++ ")"])) :=
  ⟨rfl, by decide,
   c7_crash_isolation envCrash "A" "boom" ["A", "B", "C"] ["A", "B", "C"]
     rfl (by decide)⟩

/-- Observation of a strategy result used by the concrete scenario: on normal
return, the two counters together with the contents stored under "A.txt",
"C.txt" and "B.txt". -/
def scenarioView (r : Except String RunState) :
    Option (Nat × Nat × Option String × Option String × Option String) :=
  r.toOption.map (fun st =>
    (st.ok, st.skipped, fsGet st.fs "A.txt", fsGet st.fs "C.txt", fsGet st.fs "B.txt"))

theorem c6_aux_threads : ∀ wo ∈ List.permutations' (["A", "B", "C"] : List String),
    ∀ d ∈ List.permutations' (["A", "B", "C"] : List String),
      scenarioView (run_threads envC6 wo d) =
        some (2, 1, some "r1\nr2", some "", none) := by
  decide

theorem c6_aux_procs : ∀ wo ∈ List.permutations' (["A", "B", "C"] : List String),
    ∀ d ∈ List.permutations' (["A", "B", "C"] : List String),
      scenarioView (run_processes envC6 wo d) =
        some (2, 1, some "r1\nr2", some "", none) := by
  decide

/-- C6: in the concrete stub scenario (batch ["A","B","C"]; fetching "A"
succeeds with payload ["r1","r2"], "B" times out, "C" succeeds with an empty
payload), every strategy — under every write order and completion-delivery
order for the two pools — returns ok=2 and skipped=1, stores "r1\nr2" under
"A.txt" and "" under "C.txt", and stores nothing under "B.txt". -/
theorem c6_concrete_scenario (wo d wo2 d2 : List String)
    (hwo : wo.Perm ["A", "B", "C"]) (hd : d.Perm ["A", "B", "C"])
    (hwo2 : wo2.Perm ["A", "B", "C"]) (hd2 : d2.Perm ["A", "B", "C"]) :
    scenarioView (run_sequential envC6 ["A", "B", "C"]) =
      some (2, 1, some "r1\nr2", some "", none) ∧
    scenarioView (run_threads envC6 wo d) =
      some (2, 1, some "r1\nr2", some "", none) ∧
    scenarioView (run_processes envC6 wo2 d2) =
      some (2, 1, some "r1\nr2", some "", none) :=
  ⟨by decide,
   c6_aux_threads wo (List.mem_permutations'.mpr hwo) d (List.mem_permutations'.mpr hd),
   c6_aux_procs wo2 (List.mem_permutations'.mpr hwo2) d2
     (List.mem_permutations'.mpr hd2)⟩

theorem c6_witness :
    (["C", "A", "B"] : List String).Perm ["A", "B", "C"] ∧
    scenarioView (run_sequential envC6 ["A", "B", "C"]) =
      some (2, 1, some "r1\nr2", some "", none) ∧
    scenarioView (run_threads envC6 ["C", "A", "B"] ["B", "A", "C"]) =
      some (2, 1, some "r1\nr2", some "", none) ∧
    scenarioView (run_processes envC6 ["A", "C", "B"] ["C", "B", "A"]) =
      some (2, 1, some "r1\nr2", some "", none) := by
  have h := c6_concrete_scenario ["C", "A", "B"] ["B", "A", "C"] ["A", "C", "B"]
    ["C", "B", "A"] (by decide) (by decide) (by decide) (by decide)
  exact ⟨by decide, h.1, h.2.1, h.2.2⟩

/-- C10: `safe_filename` is idempotent, its output never exceeds 150
characters, and the output contains none of the nine forbidden filename
characters. -/
theorem c10_safe_filename_props (s : String) :
    safe_filename (safe_filename s) = safe_filename s ∧
    (safe_filename s).length ≤ 150 ∧
    (safe_filename s).data.all (fun c => !illegalChar c) = true := by
  refine ⟨safe_filename_idem s, safe_filename_length s, ?_⟩
  rw [List.all_eq_true]
  intro c hc
  simp [safe_filename_no_illegal s c hc]

end TeamEx2
